import Mathlib

/-!
Verification of the ip-store-site visitor-logging backend (server.js).

JavaScript strings are modelled as lists of characters (`Str`), absent
values (`null`/`undefined`) as `Option`/`JsVal`, machine integers and
timestamps as `Int`/`Nat`, and the SQLite log table as a Lean list of rows.
Each definition is a direct translation of the corresponding function in
`src/ip-store-site/server.js`; spec-side definitions (used to compare the
code against the specification's wording) are marked as such.
-/

/-- JavaScript strings, modelled as lists of characters. -/
abbrev Str := List Char

/-- `String.split(sep)` for a one-character separator: JS semantics, so the
result always has at least one (possibly empty) group and splitting the
empty string yields `[[]]`. -/
def splitOnChar (sep : Char) : Str → List Str
  | [] => [[]]
  | c :: cs =>
    match splitOnChar sep cs with
    | [] => [[]]
    | g :: gs => if c = sep then [] :: g :: gs else (c :: g) :: gs

/-- `Array.prototype.join(sep)` for a one-character separator. -/
def unsplit (sep : Char) : List Str → Str
  | [] => []
  | [g] => g
  | g :: g' :: gs => g ++ sep :: unsplit sep (g' :: gs)

theorem splitOnChar_ne_nil (sep : Char) (l : Str) : splitOnChar sep l ≠ [] := by
  cases l with
  | nil => simp [splitOnChar]
  | cons c cs =>
    simp only [splitOnChar]
    cases splitOnChar sep cs with
    | nil => simp
    | cons g gs =>
      by_cases h : c = sep <;> simp [h]

theorem unsplit_splitOnChar (sep : Char) (l : Str) :
    unsplit sep (splitOnChar sep l) = l := by
  induction l with
  | nil => simp [splitOnChar, unsplit]
  | cons c cs ih =>
    simp only [splitOnChar]
    cases hs : splitOnChar sep cs with
    | nil => exact absurd hs (splitOnChar_ne_nil sep cs)
    | cons g gs =>
      rw [hs] at ih
      by_cases h : c = sep
      · subst h
        simp only [if_pos rfl]
        cases gs with
        | nil => simp [unsplit] at ih ⊢; exact ih
        | cons g' gs' => simp [unsplit] at ih ⊢; exact ih
      · simp only [if_neg h]
        cases gs with
        | nil => simp [unsplit] at ih ⊢; exact ih
        | cons g' gs' => simp [unsplit] at ih ⊢; exact ih

/-- A character of a group produced by `splitOnChar` occurs in the input and
is not the separator. -/
theorem mem_of_mem_splitOnChar {sep : Char} {l : Str} {g : Str} {c : Char}
    (hg : g ∈ splitOnChar sep l) (hc : c ∈ g) : c ∈ l ∧ c ≠ sep := by
  induction l generalizing g with
  | nil =>
    simp [splitOnChar] at hg
    subst hg
    simp at hc
  | cons d ds ih =>
    simp only [splitOnChar] at hg
    cases hs : splitOnChar sep ds with
    | nil => exact absurd hs (splitOnChar_ne_nil sep ds)
    | cons g0 gs =>
      rw [hs] at hg
      dsimp only at hg
      by_cases h : d = sep
      · rw [if_pos h] at hg
        rcases List.mem_cons.mp hg with h1 | h1
        · subst h1; simp at hc
        · have := ih (hs ▸ h1) hc
          exact ⟨List.mem_cons_of_mem d this.1, this.2⟩
      · rw [if_neg h] at hg
        rcases List.mem_cons.mp hg with h1 | h1
        · subst h1
          rcases List.mem_cons.mp hc with h2 | h2
          · subst h2; exact ⟨List.mem_cons_self c ds, h⟩
          · have := ih (g := g0) (hs ▸ List.mem_cons_self g0 gs) h2
            exact ⟨List.mem_cons_of_mem d this.1, this.2⟩
        · have := ih (hs ▸ List.mem_cons_of_mem g0 h1) hc
          exact ⟨List.mem_cons_of_mem d this.1, this.2⟩

/-- Splitting at a separator that does not occur in the first block. -/
theorem splitOnChar_append (sep : Char) {g : Str} (rest : Str)
    (hg : sep ∉ g) : splitOnChar sep (g ++ sep :: rest) = g :: splitOnChar sep rest := by
  induction g with
  | nil =>
    simp only [List.nil_append, splitOnChar]
    cases hs : splitOnChar sep rest with
    | nil => exact absurd hs (splitOnChar_ne_nil sep rest)
    | cons g0 gs => simp
  | cons c cs ih =>
    have hc : c ≠ sep := fun h => hg (h ▸ List.mem_cons_self c cs)
    have hcs : sep ∉ cs := fun h => hg (List.mem_cons_of_mem c h)
    show splitOnChar sep (c :: (cs ++ sep :: rest)) = (c :: cs) :: splitOnChar sep rest
    rw [splitOnChar, ih hcs]
    dsimp only
    rw [if_neg hc]

/-- Splitting a string without the separator. -/
theorem splitOnChar_of_not_mem {sep : Char} {g : Str} (hg : sep ∉ g) :
    splitOnChar sep g = [g] := by
  induction g with
  | nil => simp [splitOnChar]
  | cons c cs ih =>
    have hc : c ≠ sep := fun h => hg (h ▸ List.mem_cons_self c cs)
    have hcs : sep ∉ cs := fun h => hg (List.mem_cons_of_mem c h)
    rw [splitOnChar, ih hcs]
    dsimp only
    rw [if_neg hc]

/-- JS whitespace test for `String.prototype.trim` (the characters relevant
to header values). -/
def isJsSpace (c : Char) : Bool :=
  c = ' ' || c = '\t' || c = '\n' || c = '\r'

/-- `String.prototype.trim()`. -/
def trimStr (s : Str) : Str :=
  ((s.dropWhile isJsSpace).reverse.dropWhile isJsSpace).reverse

/-- `str.replace(/^::ffff:/, '')`: remove one leading IPv4-mapped-IPv6
prefix when present. -/
def stripMapped (s : Str) : Str :=
  if s.take 7 = "::ffff:".data then s.drop 7 else s

/-- JavaScript truthiness for an optional string: `null`, `undefined` and
the empty string are falsy. -/
def truthy (o : Option Str) : Option Str :=
  match o with
  | none => none
  | some s => if s = [] then none else some s

/-- One group of the IPv4 regex `(\d{1,3})`: one to three decimal digits. -/
def isOctet (g : Str) : Bool :=
  decide (1 ≤ g.length) && decide (g.length ≤ 3) && g.all (·.isDigit)

/-- The regex match `ip.match(/^(\d{1,3})\.(\d{1,3})\.(\d{1,3})\.(\d{1,3})$/)`
from `maskIp`, returning the first two capture groups on success. -/
def ipv4Parts (ip : Str) : Option (Str × Str) :=
  match splitOnChar '.' ip with
  | [g1, g2, g3, g4] =>
    if isOctet g1 && isOctet g2 && isOctet g3 && isOctet g4 then some (g1, g2) else none
  | _ => none

/-- `ip.split(':').filter(Boolean)` from `maskIp`: the colon groups of the
address with the empty groups of `::` compression dropped. -/
def nonEmptyColonGroups (ip : Str) : List Str :=
  (splitOnChar ':' ip).filter (fun g => g ≠ [])

/-- `maskIp` from server.js: falsy input gives "unknown"; after stripping a
`::ffff:` prefix, an exact IPv4 match gives `a.b.x.x`; otherwise the
non-empty colon groups are counted and either truncated with a fixed
suffix or replaced by "masked". -/
def maskIp (ipRaw : Option Str) : Str :=
  match ipRaw with
  | none => "unknown".data
  | some s =>
    if s = [] then "unknown".data
    else
      let ip := stripMapped s
      match ipv4Parts ip with
      | some (a, b) => a ++ '.' :: (b ++ ".x.x".data)
      | none =>
        let parts := nonEmptyColonGroups ip
        if 3 ≤ parts.length then unsplit ':' (parts.take 3) ++ ":xxxx:xxxx".data
        else "masked".data

/-- Spec-side reading of one octet group of the IPv4 regex: one to three
decimal digits. -/
def OctetP (g : Str) : Prop :=
  1 ≤ g.length ∧ g.length ≤ 3 ∧ ∀ c ∈ g, c.isDigit

instance (g : Str) : Decidable (OctetP g) := by
  unfold OctetP; infer_instance

/-- Spec-side semantics of an exact match of the four-octet IPv4 regex
`^(\d{1,3})\.(\d{1,3})\.(\d{1,3})\.(\d{1,3})$`: the string decomposes into
four octet groups separated by dots. -/
def IPv4Exact (ip : Str) : Prop :=
  ∃ g1 g2 g3 g4, OctetP g1 ∧ OctetP g2 ∧ OctetP g3 ∧ OctetP g4 ∧
    ip = g1 ++ '.' :: (g2 ++ '.' :: (g3 ++ '.' :: g4))

theorem not_dot_of_octet {g : Str} (h : OctetP g) : '.' ∉ g := by
  intro hmem
  have := h.2.2 '.' hmem
  simp [Char.isDigit] at this

theorem isOctet_iff {g : Str} : isOctet g = true ↔ OctetP g := by
  simp [isOctet, OctetP, List.all_eq_true, Bool.and_eq_true, and_assoc]

/-- Soundness of the regex model: a decomposition into four octet groups is
recognized by `ipv4Parts` and yields the first two groups. -/
theorem ipv4Parts_of_exact {g1 g2 g3 g4 : Str}
    (h1 : OctetP g1) (h2 : OctetP g2) (h3 : OctetP g3) (h4 : OctetP g4) :
    ipv4Parts (g1 ++ '.' :: (g2 ++ '.' :: (g3 ++ '.' :: g4))) = some (g1, g2) := by
  have e1 := splitOnChar_append '.' (g2 ++ '.' :: (g3 ++ '.' :: g4)) (not_dot_of_octet h1)
  have e2 := splitOnChar_append '.' (g3 ++ '.' :: g4) (not_dot_of_octet h2)
  have e3 := splitOnChar_append '.' g4 (not_dot_of_octet h3)
  have e4 := splitOnChar_of_not_mem (not_dot_of_octet h4)
  rw [ipv4Parts, e1, e2, e3, e4]
  dsimp only
  rw [if_pos]
  simp [isOctet_iff.mpr h1, isOctet_iff.mpr h2, isOctet_iff.mpr h3, isOctet_iff.mpr h4]

/-- Completeness of the regex model: whenever `ipv4Parts` succeeds, the
input is an exact four-octet match whose first two groups are returned. -/
theorem exact_of_ipv4Parts {ip : Str} {a b : Str} (h : ipv4Parts ip = some (a, b)) :
    ∃ g3 g4, OctetP a ∧ OctetP b ∧ OctetP g3 ∧ OctetP g4 ∧
      ip = a ++ '.' :: (b ++ '.' :: (g3 ++ '.' :: g4)) := by
  unfold ipv4Parts at h
  cases hs : splitOnChar '.' ip with
  | nil => exact absurd hs (splitOnChar_ne_nil '.' ip)
  | cons g1 gs =>
    rw [hs] at h
    rcases gs with _ | ⟨g2, _ | ⟨g3, _ | ⟨g4, _ | ⟨g5, rest⟩⟩⟩⟩ <;> dsimp only at h
    iterate 3 exact absurd h (by simp)
    case cons.cons.cons.nil =>
      by_cases hoct : isOctet g1 && isOctet g2 && isOctet g3 && isOctet g4
      · rw [if_pos hoct] at h
        simp only [Bool.and_eq_true] at hoct
        obtain ⟨⟨⟨o1, o2⟩, o3⟩, o4⟩ := hoct
        obtain ⟨ha, hb⟩ : g1 = a ∧ g2 = b := by
          have h' := Option.some.inj h
          exact ⟨congrArg Prod.fst h', congrArg Prod.snd h'⟩
        subst ha hb
        refine ⟨g3, g4, isOctet_iff.mp o1, isOctet_iff.mp o2, isOctet_iff.mp o3,
          isOctet_iff.mp o4, ?_⟩
        have := unsplit_splitOnChar '.' ip
        rw [hs] at this
        simpa [unsplit, List.append_assoc] using this.symm
      · rw [if_neg hoct] at h
        exact absurd h (by simp)
    case cons.cons.cons.cons => exact absurd h (by simp)

theorem IPv4Exact_iff {ip : Str} :
    IPv4Exact ip ↔ ∃ p, ipv4Parts ip = some p := by
  constructor
  · rintro ⟨g1, g2, g3, g4, h1, h2, h3, h4, rfl⟩
    exact ⟨(g1, g2), ipv4Parts_of_exact h1 h2 h3 h4⟩
  · rintro ⟨⟨a, b⟩, h⟩
    obtain ⟨g3, g4, h1, h2, h3, h4, hip⟩ := exact_of_ipv4Parts h
    exact ⟨a, b, g3, g4, h1, h2, h3, h4, hip⟩

example : maskIp (some "203.0.113.9".data) = "203.0.x.x".data := by decide
example : maskIp (some "::ffff:10.0.0.1".data) = "10.0.x.x".data := by decide
example : maskIp (some "2001:db8:85a3::8a2e:370:7334".data) =
    "2001:db8:85a3:xxxx:xxxx".data := by decide
example : maskIp (some "::1".data) = "masked".data := by decide
example : maskIp none = "unknown".data := by decide
example : maskIp (some [] ) = "unknown".data := by decide

/-- A character of a four-octet decomposition is a digit or a dot. -/
theorem mem_ipv4_decomp {g1 g2 g3 g4 : Str} {c : Char}
    (h1 : OctetP g1) (h2 : OctetP g2) (h3 : OctetP g3) (h4 : OctetP g4)
    (hc : c ∈ g1 ++ '.' :: (g2 ++ '.' :: (g3 ++ '.' :: g4))) :
    c.isDigit ∨ c = '.' := by
  simp only [List.mem_append, List.mem_cons] at hc
  rcases hc with h | h | h | h | h | h | h
  · exact Or.inl (h1.2.2 c h)
  · exact Or.inr h
  · exact Or.inl (h2.2.2 c h)
  · exact Or.inr h
  · exact Or.inl (h3.2.2 c h)
  · exact Or.inr h
  · exact Or.inl (h4.2.2 c h)

/-- Characters survive the `::ffff:` prefix strip. -/
theorem mem_of_mem_stripMapped {s : Str} {c : Char} (h : c ∈ stripMapped s) : c ∈ s := by
  unfold stripMapped at h
  by_cases hp : s.take 7 = "::ffff:".data
  · rw [if_pos hp] at h
    exact List.drop_subset 7 s h
  · rwa [if_neg hp] at h

/-- A string starting with a digit is not stripped by `stripMapped`. -/
theorem stripMapped_of_digits {s : Str} (hs : ∀ c ∈ s, c.isDigit ∨ c = '.') :
    stripMapped s = s := by
  unfold stripMapped
  rw [if_neg]
  intro hp
  have hmem : ':' ∈ s := List.take_subset 7 s (hp ▸ (by decide : ':' ∈ "::ffff:".data))
  rcases hs ':' hmem with h | h <;> simp [Char.isDigit] at h

/-- Claim C2: total case analysis of the masking function. `maskIp` is a
total Lean function (it never throws for any string input), and: absent or
empty input yields "unknown"; when the input, after stripping a `::ffff:`
prefix, exactly matches the four-octet IPv4 regex (it decomposes into four
1-3 digit groups separated by dots), the output keeps the first two octets
and redacts the rest as `a.b.x.x`; otherwise, when splitting on `:` leaves
at least 3 non-empty groups, the output is the first 3 groups joined with
`:` plus the suffix `:xxxx:xxxx`; and otherwise the literal "masked". -/
theorem maskIp_case_analysis (ipRaw : Option Str) :
    ((ipRaw = none ∨ ipRaw = some []) → maskIp ipRaw = "unknown".data)
    ∧ (∀ s g1 g2 g3 g4, ipRaw = some s → s ≠ [] →
        OctetP g1 → OctetP g2 → OctetP g3 → OctetP g4 →
        stripMapped s = g1 ++ '.' :: (g2 ++ '.' :: (g3 ++ '.' :: g4)) →
        maskIp ipRaw = g1 ++ '.' :: (g2 ++ ".x.x".data))
    ∧ (∀ s, ipRaw = some s → s ≠ [] → ¬ IPv4Exact (stripMapped s) →
        3 ≤ (nonEmptyColonGroups (stripMapped s)).length →
        maskIp ipRaw =
          unsplit ':' ((nonEmptyColonGroups (stripMapped s)).take 3) ++ ":xxxx:xxxx".data)
    ∧ (∀ s, ipRaw = some s → s ≠ [] → ¬ IPv4Exact (stripMapped s) →
        (nonEmptyColonGroups (stripMapped s)).length < 3 →
        maskIp ipRaw = "masked".data) := by
  refine ⟨?_, ?_, ?_, ?_⟩
  · rintro (rfl | rfl) <;> simp [maskIp]
  · rintro s g1 g2 g3 g4 rfl hs h1 h2 h3 h4 hdec
    simp only [maskIp, if_neg hs]
    rw [hdec, ipv4Parts_of_exact h1 h2 h3 h4]
  · rintro s rfl hs hv4 hlen
    have hp : ipv4Parts (stripMapped s) = none := by
      cases hp : ipv4Parts (stripMapped s) with
      | none => rfl
      | some p => exact absurd (IPv4Exact_iff.mpr ⟨p, hp⟩) hv4
    simp only [maskIp, if_neg hs]
    rw [hp]
    dsimp only
    rw [if_pos hlen]
  · rintro s rfl hs hv4 hlen
    have hp : ipv4Parts (stripMapped s) = none := by
      cases hp : ipv4Parts (stripMapped s) with
      | none => rfl
      | some p => exact absurd (IPv4Exact_iff.mpr ⟨p, hp⟩) hv4
    simp only [maskIp, if_neg hs]
    rw [hp]
    dsimp only
    rw [if_neg (by omega)]

/-- Hexadecimal digit, as in a valid IPv6 group. -/
def isHexDigit (c : Char) : Bool :=
  c.isDigit || ('a' ≤ c && c ≤ 'f') || ('A' ≤ c && c ≤ 'F')

/-- A recognized IPv6 address form: it contains a colon and every character
is a hexadecimal digit, a colon, or a dot. The dot admits the embedded
IPv4 notations of RFC 4291 section 2.2 such as `::ffff:1.2.3.4` and
`64:ff9b::1.2.3.4`, so this is a superset of the valid IPv6 textual forms
and a statement over all such strings covers every real IPv6 address. -/
def IsIPv6Form (s : Str) : Prop :=
  ':' ∈ s ∧ ∀ c ∈ s, isHexDigit c = true ∨ c = ':' ∨ c = '.'

/-- Claim C8: masking is never the identity on real addresses — for every
string in a recognized IPv4 form (exact four-octet regex match) or a
recognized IPv6 form (strings of hex digits, colons and dots containing a
colon: a superset of the valid IPv6 textual forms, embedded-IPv4 notation
included), the output of `maskIp` differs from the raw input. -/
theorem maskIp_ne_self (s : Str) (h : IPv4Exact s ∨ IsIPv6Form s) :
    maskIp (some s) ≠ s := by
  rcases h with h4 | h6
  · obtain ⟨g1, g2, g3, g4, h1, h2, h3, h4, hdec⟩ := h4
    have hchar : ∀ c ∈ s, c.isDigit ∨ c = '.' := by
      intro c hc
      exact mem_ipv4_decomp h1 h2 h3 h4 (hdec ▸ hc)
    have hs : s ≠ [] := by
      intro he
      have : ('.' : Char) ∈ s := by
        rw [hdec]
        exact List.mem_append_right g1 (List.mem_cons_self '.' _)
      rw [he] at this
      simp at this
    have hstrip : stripMapped s = s := stripMapped_of_digits hchar
    have hout : maskIp (some s) = g1 ++ '.' :: (g2 ++ ".x.x".data) := by
      simp only [maskIp, if_neg hs]
      rw [hstrip, hdec, ipv4Parts_of_exact h1 h2 h3 h4]
    rw [hout]
    intro heq
    have hx : ('x' : Char) ∈ s := by
      rw [← heq]
      refine List.mem_append_right g1 (List.mem_cons_of_mem '.' ?_)
      exact List.mem_append_right g2 (by decide)
    rcases hchar 'x' hx with hd | hd <;> simp [Char.isDigit] at hd
  · obtain ⟨hcolon, hchar⟩ := h6
    have hs : s ≠ [] := List.ne_nil_of_mem hcolon
    have hnx : ('x' : Char) ∉ s := by
      intro hx
      rcases hchar 'x' hx with hd | hd | hd <;>
        simp [isHexDigit, Char.isDigit] at hd
    cases hp : ipv4Parts (stripMapped s) with
    | some p =>
      obtain ⟨a, b⟩ := p
      have hout : maskIp (some s) = a ++ '.' :: (b ++ ".x.x".data) := by
        simp only [maskIp, if_neg hs]
        rw [hp]
      rw [hout]
      intro heq
      refine hnx ?_
      rw [← heq]
      refine List.mem_append_right a (List.mem_cons_of_mem '.' ?_)
      exact List.mem_append_right b (by decide)
    | none =>
      by_cases hlen : 3 ≤ (nonEmptyColonGroups (stripMapped s)).length
      · have hout : maskIp (some s) =
            unsplit ':' ((nonEmptyColonGroups (stripMapped s)).take 3) ++ ":xxxx:xxxx".data := by
          simp only [maskIp, if_neg hs]
          rw [hp]
          dsimp only
          rw [if_pos hlen]
        rw [hout]
        intro heq
        refine hnx ?_
        rw [← heq]
        exact List.mem_append_right _ (by decide)
      · have hout : maskIp (some s) = "masked".data := by
          simp only [maskIp, if_neg hs]
          rw [hp]
          dsimp only
          rw [if_neg hlen]
        rw [hout]
        intro heq
        rw [← heq] at hcolon
        simp at hcolon

/-- Witness for C8 at the concrete IPv4 address 1.2.3.4, the concrete IPv6
address 2001:db8:85a3:0:0:8a2e:370:7334, and the IPv4-mapped IPv6 address
::ffff:1.2.3.4 in embedded dotted notation. -/
theorem maskIp_ne_self_witness :
    maskIp (some "1.2.3.4".data) ≠ "1.2.3.4".data
    ∧ maskIp (some "2001:db8:85a3:0:0:8a2e:370:7334".data) ≠
        "2001:db8:85a3:0:0:8a2e:370:7334".data
    ∧ maskIp (some "::ffff:1.2.3.4".data) ≠ "::ffff:1.2.3.4".data := by
  refine ⟨?_, ?_, ?_⟩
  · exact maskIp_ne_self "1.2.3.4".data
      (Or.inl ⟨"1".data, "2".data, "3".data, "4".data,
        by decide, by decide, by decide, by decide, by decide⟩)
  · exact maskIp_ne_self "2001:db8:85a3:0:0:8a2e:370:7334".data
      (Or.inr ⟨by decide, by decide⟩)
  · exact maskIp_ne_self "::ffff:1.2.3.4".data
      (Or.inr ⟨by decide, by decide⟩)

/-- 32-bit wraparound. -/
def w32 (n : Nat) : Nat := n % 4294967296

/-- 32-bit modular addition. -/
def add32 (a b : Nat) : Nat := (a + b) % 4294967296

/-- 32-bit right rotation. -/
def rotr32 (n w : Nat) : Nat := w32 (w / 2 ^ n + w % 2 ^ n * 2 ^ (32 - n))

/-- 32-bit complement. -/
def not32 (w : Nat) : Nat := Nat.xor w 4294967295

def bigSigma0 (x : Nat) : Nat := rotr32 2 x ^^^ rotr32 13 x ^^^ rotr32 22 x

def bigSigma1 (x : Nat) : Nat := rotr32 6 x ^^^ rotr32 11 x ^^^ rotr32 25 x

def smallSigma0 (x : Nat) : Nat := rotr32 7 x ^^^ rotr32 18 x ^^^ x / 2 ^ 3

def smallSigma1 (x : Nat) : Nat := rotr32 17 x ^^^ rotr32 19 x ^^^ x / 2 ^ 10

def chFn (e f g : Nat) : Nat := (e &&& f) ^^^ (not32 e &&& g)

def majFn (a b c : Nat) : Nat := (a &&& b) ^^^ (a &&& c) ^^^ (b &&& c)

/-- The eight 32-bit words of a SHA-256 state. -/
structure Hash8 where
  a : Nat
  b : Nat
  c : Nat
  d : Nat
  e : Nat
  f : Nat
  g : Nat
  h : Nat

def sha256Init : Hash8 :=
  ⟨1779033703, 3144134277, 1013904242, 2773480762,
   1359893119, 2600822924, 528734635, 1541459225⟩

def sha256K : List Nat :=
  [1116352408, 1899447441, 3049323471, 3921009573, 961987163,
   1508970993, 2453635748, 2870763221, 3624381080, 310598401,
   607225278, 1426881987, 1925078388, 2162078206, 2614888103,
   3248222580, 3835390401, 4022224774, 264347078, 604807628,
   770255983, 1249150122, 1555081692, 1996064986, 2554220882,
   2821834349, 2952996808, 3210313671, 3336571891, 3584528711,
   113926993, 338241895, 666307205, 773529912, 1294757372,
   1396182291, 1695183700, 1986661051, 2177026350, 2456956037,
   2730485921, 2820302411, 3259730800, 3345764771, 3516065817,
   3600352804, 4094571909, 275423344, 430227734, 506948616,
   659060556, 883997877, 958139571, 1322822218, 1537002063,
   1747873779, 1955562222, 2024104815, 2227730452, 2361852424,
   2428436474, 2756734187, 3204031479, 3329325298]

def sha256Round (st : Hash8) (kw : Nat × Nat) : Hash8 :=
  let t1 := add32 st.h (add32 (bigSigma1 st.e) (add32 (chFn st.e st.f st.g) (add32 kw.1 kw.2)))
  let t2 := add32 (bigSigma0 st.a) (majFn st.a st.b st.c)
  ⟨add32 t1 t2, st.a, st.b, st.c, add32 st.d t1, st.e, st.f, st.g⟩

/-- Extend the 16 words of a block to the 64-entry message schedule. -/
def scheduleW (block : List Nat) : List Nat :=
  (List.range 48).foldl
    (fun ws _ =>
      ws ++ [add32 (add32 (smallSigma1 (ws.getD (ws.length - 2) 0)) (ws.getD (ws.length - 7) 0))
        (add32 (smallSigma0 (ws.getD (ws.length - 15) 0)) (ws.getD (ws.length - 16) 0))])
    block

def sha256Compress (h : Hash8) (block : List Nat) : Hash8 :=
  let st := (sha256K.zip (scheduleW block)).foldl sha256Round h
  ⟨add32 h.a st.a, add32 h.b st.b, add32 h.c st.c, add32 h.d st.d,
   add32 h.e st.e, add32 h.f st.f, add32 h.g st.g, add32 h.h st.h⟩

/-- Big-endian byte rendering of `n`, `k` bytes wide. -/
def beBytes (k n : Nat) : List Nat :=
  (List.range k).map (fun i => n / 2 ^ (8 * (k - 1 - i)) % 256)

/-- SHA-256 padding: a 1-bit, zeros to 56 mod 64, then the 64-bit length. -/
def sha256Pad (msg : List Nat) : List Nat :=
  msg ++ 128 :: (List.replicate ((119 - msg.length % 64) % 64) 0 ++ beBytes 8 (8 * msg.length))

/-- Split a byte list into chunks of `k + 1` bytes. -/
def chunksOf (k : Nat) (l : List Nat) : List (List Nat) :=
  if h : l = [] then []
  else l.take (k + 1) :: chunksOf k (l.drop (k + 1))
termination_by l.length
decreasing_by
  simp only [List.length_drop]
  have := List.length_pos.mpr h
  omega

/-- The 16 32-bit big-endian words of a 64-byte block. -/
def wordsOfBlock (block : List Nat) : List Nat :=
  (chunksOf 3 block).map (fun b => b.foldl (fun acc x => acc * 256 + x) 0)

def sha256Hash (msg : List Nat) : Hash8 :=
  ((chunksOf 63 (sha256Pad msg)).map wordsOfBlock).foldl sha256Compress sha256Init

/-- SHA-256 digest as a list of 32 bytes. -/
def sha256Bytes (msg : List Nat) : List Nat :=
  let h := sha256Hash msg
  beBytes 4 h.a ++ beBytes 4 h.b ++ beBytes 4 h.c ++ beBytes 4 h.d ++
    (beBytes 4 h.e ++ beBytes 4 h.f ++ beBytes 4 h.g ++ beBytes 4 h.h)

theorem length_beBytes (k n : Nat) : (beBytes k n).length = k := by
  simp [beBytes]

theorem length_sha256Bytes (msg : List Nat) : (sha256Bytes msg).length = 32 := by
  simp [sha256Bytes, length_beBytes]

/-- HMAC-SHA256 (`crypto.createHmac('sha256', key)`): the key is hashed if
longer than the 64-byte block, zero-padded to the block size, and combined
with the inner and outer pads. -/
def hmacSha256 (key msg : List Nat) : List Nat :=
  let k1 := if 64 < key.length then sha256Bytes key else key
  let k0 := k1 ++ List.replicate (64 - k1.length) 0
  sha256Bytes ((k0.map (fun b => Nat.xor b 92)) ++
    sha256Bytes ((k0.map (fun b => Nat.xor b 54)) ++ msg))

theorem length_hmacSha256 (key msg : List Nat) : (hmacSha256 key msg).length = 32 := by
  simp [hmacSha256, length_sha256Bytes]

/-- UTF-8 encoding of one character (what `hash.update(string)` feeds the
digest in Node). -/
def utf8Char (c : Char) : List Nat :=
  let n := c.toNat
  if n < 128 then [n]
  else if n < 2048 then [192 + n / 64, 128 + n % 64]
  else if n < 65536 then [224 + n / 4096, 128 + n / 64 % 64, 128 + n % 64]
  else [240 + n / 262144, 128 + n / 4096 % 64, 128 + n / 64 % 64, 128 + n % 64]

def utf8Encode (s : Str) : List Nat := (s.map utf8Char).flatten

/-- Lower-case hexadecimal digit of a value below 16. -/
def hexDigitChar (n : Nat) : Char :=
  if n < 10 then Char.ofNat (48 + n) else Char.ofNat (87 + n)

/-- `digest('hex')`: two lower-case hex characters per byte. -/
def hexOfBytes (bs : List Nat) : Str :=
  (bs.map (fun b => [hexDigitChar (b / 16), hexDigitChar (b % 16)])).flatten

theorem length_hexOfBytes (bs : List Nat) : (hexOfBytes bs).length = 2 * bs.length := by
  induction bs with
  | nil => rfl
  | cons b bs ih =>
    have hcons : hexOfBytes (b :: bs) =
        hexDigitChar (b / 16) :: hexDigitChar (b % 16) :: hexOfBytes bs := rfl
    rw [hcons, List.length_cons, List.length_cons, ih, List.length_cons]
    omega

/-- A JavaScript value as it reaches `pseudonymizeIp`: `null`, `undefined`
or a string. -/
inductive JsVal where
  | nullV
  | undefV
  | strV (s : Str)

/-- `ipRaw || ''` from `pseudonymizeIp`: absent values become the empty
string before hashing. -/
def jsStrOrEmpty : JsVal → Str
  | JsVal.nullV => []
  | JsVal.undefV => []
  | JsVal.strV s => s

/-- `pseudonymizeIp` from server.js: deterministic HMAC-SHA256 of the raw
address (absent input replaced by the empty string) under the server-side
secret, hex-encoded. -/
def pseudonymizeIp (key : Str) (ipRaw : JsVal) : Str :=
  hexOfBytes (hmacSha256 (utf8Encode key) (utf8Encode (jsStrOrEmpty ipRaw)))

/-- One invocation of `pseudonymizeIp` in the handler: the ambient request
(`requestId`) and process incarnation (`processStart`) are passed as ghost
arguments to record that the source reads neither — `pseudonymizeIp` uses
only the raw address and the startup key, with no per-request salt. -/
def pseudonymizeInvocation (_requestId _processStart : Nat) (key : Str) (ipRaw : JsVal) : Str :=
  pseudonymizeIp key ipRaw

/-- Claim C3: pseudonymization is deterministic — two invocations of
`pseudonymizeIp` on the same raw address under the same secret key agree
whatever the ambient request or process incarnation (no per-request
salting, stable across restarts), and the result is a fixed-length
(64-character) hex digest. -/
theorem pseudonymizeIp_deterministic (key : Str) (ipRaw : JsVal)
    (r1 p1 r2 p2 : Nat) :
    pseudonymizeInvocation r1 p1 key ipRaw = pseudonymizeInvocation r2 p2 key ipRaw
    ∧ (pseudonymizeIp key ipRaw).length = 64 := by
  refine ⟨rfl, ?_⟩
  rw [pseudonymizeIp, length_hexOfBytes, length_hmacSha256]

/-- Claim C10: pseudonymizeIp is total over absent input — `null`,
`undefined` and the empty string are all replaced by the empty string
before hashing, so the three calls agree, equal the keyed hash of the
empty string, and return a 64-character hex digest. -/
theorem pseudonymizeIp_absent_input (key : Str) :
    pseudonymizeIp key JsVal.nullV = pseudonymizeIp key JsVal.undefV
    ∧ pseudonymizeIp key JsVal.undefV = pseudonymizeIp key (JsVal.strV [])
    ∧ pseudonymizeIp key JsVal.nullV = hexOfBytes (hmacSha256 (utf8Encode key) [])
    ∧ (pseudonymizeIp key JsVal.nullV).length = 64 := by
  refine ⟨rfl, rfl, rfl, ?_⟩
  rw [pseudonymizeIp, length_hexOfBytes, length_hmacSha256]

/-- The JSON body `ipapi.co` returns, as read by `geoLookup` (each field
may be missing or empty). -/
structure GeoJson where
  country_name : Option Str
  region : Option Str
  city : Option Str

/-- What reaches `geoLookup`'s `fetch` from outside: the request fails
(network error, or the 2.5 s AbortController timeout fires), or a response
arrives with a status (`res.ok`) and a body whose JSON parse may itself
throw (`malformed`). -/
inductive FetchOutcome where
  | fail (e : Str)
  | resp (ok : Bool) (body : Except Str GeoJson)

/-- The geo record `geoLookup` builds on success. -/
structure Geo where
  country : Option Str
  region : Option Str
  city : Option Str

/-- `j.country_name || null` and friends: falsy fields become null. -/
def jsFieldOrNull (o : Option Str) : Option Str := truthy o

/-- `geoLookup` from server.js, with the network's behaviour passed in as
`net`. Returns the geo data (`none` is the "no data" result) and whether a
network call was issued. Falsy or "unknown" addresses short-circuit; every
failure path of the `try`/`catch` returns `null` instead of throwing. -/
def geoLookup (ip : Option Str) (net : FetchOutcome) : Option Geo × Bool :=
  match ip with
  | none => (none, false)
  | some s =>
    if s = [] ∨ s = "unknown".data then (none, false)
    else
      match net with
      | FetchOutcome.fail _ => (none, true)
      | FetchOutcome.resp ok body =>
        if ok = false then (none, true)
        else
          match body with
          | Except.error _ => (none, true)
          | Except.ok j =>
            (some ⟨jsFieldOrNull j.country_name, jsFieldOrNull j.region,
              jsFieldOrNull j.city⟩, true)

/-- Claim C5: geo enrichment never fails the write — for every address and
every network behaviour, `geoLookup` returns the "no data" result (`none`)
on network failure or timeout, on a non-2xx response, and on a malformed
response body, rather than propagating an error (it is a total function);
and an absent or "unknown" address short-circuits to "no data" without
issuing any network call. -/
theorem geoLookup_best_effort (ip : Option Str) (net : FetchOutcome) :
    ((∃ e, net = FetchOutcome.fail e) → (geoLookup ip net).1 = none)
    ∧ (∀ body, net = FetchOutcome.resp false body → (geoLookup ip net).1 = none)
    ∧ (∀ e, net = FetchOutcome.resp true (Except.error e) → (geoLookup ip net).1 = none)
    ∧ ((ip = none ∨ ip = some "unknown".data) → geoLookup ip net = (none, false)) := by
  refine ⟨?_, ?_, ?_, ?_⟩
  · rintro ⟨e, rfl⟩
    match ip with
    | none => rfl
    | some s =>
      simp only [geoLookup]
      by_cases hs : s = [] ∨ s = "unknown".data
      · rw [if_pos hs]
      · rw [if_neg hs]
  · rintro body rfl
    match ip with
    | none => rfl
    | some s =>
      simp only [geoLookup]
      by_cases hs : s = [] ∨ s = "unknown".data
      · rw [if_pos hs]
      · rw [if_neg hs]
        simp
  · rintro e rfl
    match ip with
    | none => rfl
    | some s =>
      simp only [geoLookup]
      by_cases hs : s = [] ∨ s = "unknown".data
      · rw [if_pos hs]
      · rw [if_neg hs]
        simp
  · rintro (rfl | rfl)
    · rfl
    · simp [geoLookup]

/-- Witness for C5 at a concrete address and a timed-out fetch, and at the
"unknown" address. -/
theorem geoLookup_best_effort_witness :
    (geoLookup (some "203.0.113.9".data) (FetchOutcome.fail "timeout".data)).1 = none
    ∧ geoLookup (some "unknown".data) (FetchOutcome.fail "timeout".data) = (none, false) := by
  constructor
  · exact (geoLookup_best_effort (some "203.0.113.9".data)
      (FetchOutcome.fail "timeout".data)).1 ⟨"timeout".data, rfl⟩
  · exact (geoLookup_best_effort (some "unknown".data)
      (FetchOutcome.fail "timeout".data)).2.2.2 (Or.inr rfl)

/-- The request metadata `getClientIp` reads: the `x-forwarded-for` header,
the socket's transport-level peer address (`none` when the socket or its
address is absent), and Express's computed `req.ip`. -/
structure Request where
  xff : Option Str
  remoteAddress : Option Str
  reqIp : Option Str

/-- `getClientIp` from server.js: a truthy forwarding header wins (first
comma-separated entry, trimmed); then the socket's remote address; then
`req.ip`; else the literal "unknown". -/
def getClientIp (r : Request) : Str :=
  match truthy r.xff with
  | some f => trimStr ((splitOnChar ',' f).headD [])
  | none =>
    match truthy r.remoteAddress with
    | some a => a
    | none =>
      match truthy r.reqIp with
      | some i => i
      | none => "unknown".data

/-- The resolver as the log path uses it (line 130 of server.js):
`getClientIp(req).replace(/^::ffff:/, '')`. -/
def resolvedClientIp (r : Request) : Str :=
  stripMapped (getClientIp r)

/-- Spec-side resolver, as claim C7 words it: first comma-separated entry
of the forwarding header, trimmed, when the header is present; otherwise
the transport-level peer address; otherwise the literal "unknown"; with a
leading `::ffff:` prefix stripped before use. -/
def claimedResolver (r : Request) : Str :=
  stripMapped
    (match truthy r.xff with
     | some f => trimStr ((splitOnChar ',' f).headD [])
     | none =>
       match truthy r.remoteAddress with
       | some a => a
       | none => "unknown".data)

/-- Counterexample to C7 as stated: a request with no forwarding header
and no socket peer address but a framework-computed `req.ip` resolves to
that address, not to "unknown" as the claimed three-step chain demands. -/
theorem resolvedClientIp_counterexample :
    resolvedClientIp ⟨none, none, some "9.9.9.9".data⟩
      ≠ claimedResolver ⟨none, none, some "9.9.9.9".data⟩ := by
  decide

/-- Claim C7 (amended): the resolver takes the first comma-separated entry
of the forwarding header, trimmed, when that header is present (truthy);
otherwise the transport-level peer address; otherwise the framework's
`req.ip`; otherwise the literal "unknown"; it strips a leading `::ffff:`
prefix before use, and is a pure total function (it never fails). -/
theorem resolvedClientIp_spec (r : Request) :
    (∀ f, truthy r.xff = some f →
      resolvedClientIp r = stripMapped (trimStr ((splitOnChar ',' f).headD [])))
    ∧ (∀ a, truthy r.xff = none → truthy r.remoteAddress = some a →
      resolvedClientIp r = stripMapped a)
    ∧ (∀ i, truthy r.xff = none → truthy r.remoteAddress = none →
      truthy r.reqIp = some i → resolvedClientIp r = stripMapped i)
    ∧ (truthy r.xff = none → truthy r.remoteAddress = none →
      truthy r.reqIp = none → resolvedClientIp r = "unknown".data) := by
  refine ⟨?_, ?_, ?_, ?_⟩
  · intro f hf
    simp only [resolvedClientIp, getClientIp, hf]
  · intro a hf ha
    simp only [resolvedClientIp, getClientIp, hf, ha]
  · intro i hf ha hi
    simp only [resolvedClientIp, getClientIp, hf, ha, hi]
  · intro hf ha hi
    simp only [resolvedClientIp, getClientIp, hf, ha, hi]
    decide

/-- One row of the `logs` table, reduced to the fields the list and
retention queries consult (`id` from the autoincrement column, `timestamp`
as seconds since the epoch, standing for the stored UTC datetime text,
whose lexicographic order is chronological). -/
structure LogRow where
  id : Nat
  timestamp : Int
deriving DecidableEq

/-- `ORDER BY timestamp DESC`: row `x` may precede row `y` when `y` is not
more recent. -/
def recencyGE (x y : LogRow) : Prop := y.timestamp ≤ x.timestamp

instance : DecidableRel recencyGE :=
  fun a b => inferInstanceAs (Decidable (b.timestamp ≤ a.timestamp))

instance : IsTotal LogRow recencyGE :=
  ⟨fun a b => (le_total b.timestamp a.timestamp).imp (fun h => h) (fun h => h)⟩

instance : IsTrans LogRow recencyGE :=
  ⟨fun _ _ _ hab hbc => le_trans hbc hab⟩

/-- The meaning of `SELECT * FROM logs ORDER BY timestamp DESC`: the rows
sorted most-recent-first. -/
def sortByRecency (db : List LogRow) : List LogRow :=
  List.insertionSort recencyGE db

/-- The response of `GET /admin/logs`. -/
structure AdminLogsResponse where
  total : Nat
  limit : Int
  offset : Int
  logs : List LogRow

/-- The `/admin/logs` handler from server.js: `limit` is
`Math.min(parseInt(req.query.limit || '100'), 1000)`, `offset` is
`Math.max(parseInt(req.query.offset || '0'), 0)`, the rows come from
`ORDER BY timestamp DESC LIMIT ? OFFSET ?` (a negative SQLite LIMIT means
no limit), and the JSON body carries total, limit, offset and the rows. -/
def adminLogs (db : List LogRow) (limitQ offsetQ : Option Int) : AdminLogsResponse :=
  let limit := min (limitQ.getD 100) 1000
  let offset := max (offsetQ.getD 0) 0
  let ordered := sortByRecency db
  let page :=
    if limit < 0 then (ordered.drop offset.toNat)
    else (ordered.drop offset.toNat).take limit.toNat
  { total := db.length, limit := limit, offset := offset, logs := page }

/-- Inserting a row older than every row of `m` lands at the end. -/
theorem orderedInsert_append_of_lt (a : LogRow) (m : List LogRow)
    (h : ∀ x ∈ m, ¬ recencyGE a x) :
    List.orderedInsert recencyGE a m = m ++ [a] := by
  induction m with
  | nil => rfl
  | cons b m ih =>
    have hb : ¬ recencyGE a b := h b (List.mem_cons_self b m)
    simp only [List.orderedInsert, if_neg hb, List.cons_append]
    rw [ih (fun x hx => h x (List.mem_cons_of_mem b hx))]

/-- Sorting rows whose append order is strictly increasing in timestamp
reverses them. -/
theorem sortByRecency_of_strict_mono (db : List LogRow)
    (h : List.Pairwise (fun x y => x.timestamp < y.timestamp) db) :
    sortByRecency db = db.reverse := by
  induction db with
  | nil => rfl
  | cons a l ih =>
    rw [List.pairwise_cons] at h
    have hstep : sortByRecency (a :: l) =
        List.orderedInsert recencyGE a (sortByRecency l) := rfl
    rw [hstep, ih h.2, orderedInsert_append_of_lt, List.reverse_cons]
    intro x hx
    have hx' : x ∈ l := List.mem_reverse.mp hx
    exact not_le_of_lt (h.1 x hx')

/-- Claim C6: the admin listing clamps `limit` to at most 1000, keeps
`offset` non-negative, reports the total row count, returns the rows
ordered most-recent-first, and after 15 appends with increasing
timestamps, `list(limit=10, offset=0)` returns exactly the 10 most
recently appended rows in descending recency order. -/
theorem adminLogs_spec (db : List LogRow) (limitQ offsetQ : Option Int) :
    (adminLogs db limitQ offsetQ).limit ≤ 1000
    ∧ 0 ≤ (adminLogs db limitQ offsetQ).offset
    ∧ (adminLogs db limitQ offsetQ).total = db.length
    ∧ List.Pairwise recencyGE (adminLogs db limitQ offsetQ).logs
    ∧ (List.Pairwise (fun x y => x.timestamp < y.timestamp) db → db.length = 15 →
        (adminLogs db (some 10) (some 0)).logs = (db.drop 5).reverse) := by
  refine ⟨min_le_right _ _, le_max_right _ _, rfl, ?_, ?_⟩
  · have hsorted : List.Pairwise recencyGE (sortByRecency db) :=
      List.sorted_insertionSort recencyGE db
    have hsub : (adminLogs db limitQ offsetQ).logs.Sublist (sortByRecency db) := by
      simp only [adminLogs]
      by_cases hneg : min (limitQ.getD 100) 1000 < 0
      · rw [if_pos hneg]
        exact List.drop_sublist _ _
      · rw [if_neg hneg]
        exact (List.take_sublist _ _).trans (List.drop_sublist _ _)
    exact hsorted.sublist hsub
  · intro hmono hlen
    have hrev : sortByRecency db = db.reverse := sortByRecency_of_strict_mono db hmono
    have hpage : (adminLogs db (some 10) (some 0)).logs = (db.reverse.drop 0).take 10 := by
      simp [adminLogs, hrev]
    rw [hpage, List.drop_zero]
    have hlen10 : (db.drop 5).reverse.length = 10 := by
      simp [hlen]
    have hsplit : db.reverse = (db.drop 5).reverse ++ (db.take 5).reverse := by
      rw [← List.reverse_append, List.take_append_drop]
    rw [hsplit, List.take_left' hlen10]

/-- Witness for C6: a concrete 15-row table with strictly increasing
timestamps, listed with limit 10 and offset 0. -/
theorem adminLogs_spec_witness :
    (adminLogs ((List.range 15).map (fun i => ⟨i, (i : Int)⟩)) (some 10) (some 0)).logs
      = ((((List.range 15).map (fun i => (⟨i, (i : Int)⟩ : LogRow))).drop 5)).reverse := by
  refine (adminLogs_spec ((List.range 15).map (fun i => ⟨i, (i : Int)⟩))
    (some 10) (some 0)).2.2.2.2 ?_ (by decide)
  decide

/-- The cutoff `datetime('now', '-RETENTION_DAYS days')` of the retention
job, in seconds. -/
def retentionCutoff (now retentionDays : Int) : Int :=
  now - retentionDays * 86400

/-- `retentionDeleteOldLogs` from server.js:
`DELETE FROM logs WHERE timestamp <= datetime('now','-RETENTION_DAYS days')`,
so a row survives exactly when its timestamp is strictly above the cutoff. -/
def retentionDeleteOldLogs (now retentionDays : Int) (db : List LogRow) : List LogRow :=
  db.filter (fun r => ! decide (r.timestamp ≤ retentionCutoff now retentionDays))

/-- Claim C4: after the retention sweep, no surviving row's timestamp is
older than `now - horizonDays`; every row strictly within the horizon
(timestamp strictly newer than the cutoff; the code also deletes the row
sitting exactly at the cutoff) survives unchanged; the survivors are a
sublist of the table (rows are untouched, order kept); and an immediately
repeated sweep at the same instant deletes nothing further. -/
theorem retentionDeleteOldLogs_spec (now retentionDays : Int) (db : List LogRow) :
    (∀ r ∈ retentionDeleteOldLogs now retentionDays db,
      ¬ (r.timestamp < retentionCutoff now retentionDays))
    ∧ (∀ r ∈ db, retentionCutoff now retentionDays < r.timestamp →
      r ∈ retentionDeleteOldLogs now retentionDays db)
    ∧ (retentionDeleteOldLogs now retentionDays db).Sublist db
    ∧ retentionDeleteOldLogs now retentionDays
        (retentionDeleteOldLogs now retentionDays db)
      = retentionDeleteOldLogs now retentionDays db := by
  refine ⟨?_, ?_, List.filter_sublist db, ?_⟩
  · intro r hr
    have := (List.mem_filter.mp hr).2
    simp only [Bool.not_eq_true', decide_eq_false_iff_not, not_le] at this
    omega
  · intro r hr hlt
    refine List.mem_filter.mpr ⟨hr, ?_⟩
    simp only [Bool.not_eq_true', decide_eq_false_iff_not, not_le]
    exact hlt
  · refine List.filter_eq_self.mpr ?_
    intro r hr
    exact (List.mem_filter.mp hr).2

/-- Witness for C4 on a concrete three-row table around a concrete cutoff. -/
theorem retentionDeleteOldLogs_spec_witness :
    retentionDeleteOldLogs 864000 5 [⟨1, 100⟩, ⟨2, 432000⟩, ⟨3, 500000⟩]
      = [⟨3, 500000⟩]
    ∧ retentionDeleteOldLogs 864000 5
        (retentionDeleteOldLogs 864000 5 [⟨1, 100⟩, ⟨2, 432000⟩, ⟨3, 500000⟩])
      = retentionDeleteOldLogs 864000 5 [⟨1, 100⟩, ⟨2, 432000⟩, ⟨3, 500000⟩] := by
  exact ⟨by decide,
    (retentionDeleteOldLogs_spec 864000 5 [⟨1, 100⟩, ⟨2, 432000⟩, ⟨3, 500000⟩]).2.2.2⟩

/-- `req.body?.path || req.originalUrl || '/'` from the first `/api/log`
handler. -/
def pathFieldV1 (bodyPath originalUrl : Option Str) : Str :=
  match truthy bodyPath with
  | some p => p
  | none =>
    match truthy originalUrl with
    | some u => u
    | none => "/".data

/-- The row the first `/api/log` handler inserts into `logs`: masked and
pseudonymized address, optional geo fields, path, user agent and source.
There is no raw-address column. -/
structure RecordV1 where
  ip_masked : Str
  ip_pseudonym : Str
  country : Option Str
  region : Option Str
  city : Option Str
  path : Str
  user_agent : Option Str
  source : Str

/-- The first `/api/log` handler (lines 127-153 of server.js): resolve the
client address, mask and pseudonymize it, best-effort geo enrichment, and
build the inserted row. -/
def apiLogV1Record (key : Str) (r : Request)
    (bodyPath originalUrl userAgent : Option Str) (net : FetchOutcome) : RecordV1 :=
  let rawIp := resolvedClientIp r
  let geo := (geoLookup (some rawIp) net).1
  { ip_masked := maskIp (some rawIp)
    ip_pseudonym := pseudonymizeIp key (JsVal.strV rawIp)
    country := match geo with | some g => g.country | none => none
    region := match geo with | some g => g.region | none => none
    city := match geo with | some g => g.city | none => none
    path := pathFieldV1 bodyPath originalUrl
    user_agent := truthy userAgent
    source := "frontend".data }

/-- `str.replace('::ffff:', '')` with a string pattern: remove the first
occurrence anywhere. -/
def replaceFirst (pat : Str) : Str → Str
  | [] => []
  | c :: cs =>
    if (c :: cs).take pat.length = pat then (c :: cs).drop pat.length
    else c :: replaceFirst pat cs

/-- Address resolution of the second `/api/log` handler:
`(forwarded ? forwarded.split(',')[0] : req.socket.remoteAddress)
  ?.replace('::ffff:', '') || 'Unknown'`. -/
def resolveIpV2 (xff remoteAddress : Option Str) : Str :=
  let base : Option Str :=
    match truthy xff with
    | some f => some ((splitOnChar ',' f).headD [])
    | none => remoteAddress
  match base with
  | none => "Unknown".data
  | some b =>
    let r := replaceFirst "::ffff:".data b
    if r = [] then "Unknown".data else r

/-- The row the second `/api/log` handler inserts: the raw address in the
nullable `ip` column, geo fields defaulting to "Unknown", and the path. -/
structure RecordV2 where
  ip : Option Str
  country : Str
  region : Str
  city : Str
  path : Str

/-- `geo.country_name || 'Unknown'` and friends. -/
def geoFieldV2 (o : Option Str) : Str :=
  match truthy o with
  | some s => s
  | none => "Unknown".data

/-- The second `/api/log` handler (lines 255-294 of server.js). It consults
no consent state at all — `hasConsent` is a ghost argument recording the
originating client's consent status, which the handler ignores. -/
def apiLogV2Record (xff remoteAddress bodyPath : Option Str) (net : FetchOutcome)
    (_hasConsent : Bool) : RecordV2 :=
  let ip := resolveIpV2 xff remoteAddress
  let crc : Str × Str × Str :=
    match net with
    | FetchOutcome.resp true (Except.ok j) =>
      (geoFieldV2 j.country_name, geoFieldV2 j.region, geoFieldV2 j.city)
    | _ => ("Unknown".data, "Unknown".data, "Unknown".data)
  { ip := some ip
    country := crc.1
    region := crc.2.1
    city := crc.2.2
    path := match truthy bodyPath with | some p => p | none => "/".data }

/-- Claim C1, evaluated at the failing input: a log event forwarded for
client 203.0.113.9 whose client has no consent record (`hasConsent =
false`) is written by the second `/api/log` handler with the raw resolved
address, non-null, in the `ip` column; and the written row does not depend
on the consent status at all. Variant 1 stores no raw address column for
any client, so neither handler implements the consent gate the claim (and
the repository's own consent-button frontend) describes. -/
theorem apiLogV2_raw_without_consent :
    (apiLogV2Record (some "203.0.113.9".data) none none
        (FetchOutcome.fail "down".data) false).ip = some "203.0.113.9".data
    ∧ (apiLogV2Record (some "203.0.113.9".data) none none
        (FetchOutcome.fail "down".data) false).ip ≠ none
    ∧ apiLogV2Record (some "203.0.113.9".data) none none
        (FetchOutcome.fail "down".data) true
      = apiLogV2Record (some "203.0.113.9".data) none none
        (FetchOutcome.fail "down".data) false := by
  refine ⟨by decide, by decide, rfl⟩

/-- Counterexample to C9 as stated: a log event with no path field in its
body but a non-empty request URL records that URL, not the claimed safe
default "/". -/
theorem apiLogV1_missing_path_counterexample :
    (apiLogV1Record [] ⟨none, some "1.2.3.4".data, none⟩ none (some "/api/log".data)
        none (FetchOutcome.fail "down".data)).path ≠ "/".data := by
  decide

/-- Claim C9 (amended): for every inbound log event whose body has no path
field, the recorded `path` resolves to the request's original URL when
that is non-empty, and to the safe default "/" otherwise; path resolution
is total, so the absence of a path is never surfaced as an error. -/
theorem apiLogV1_missing_path (key : Str) (r : Request)
    (originalUrl userAgent : Option Str) (net : FetchOutcome) :
    (apiLogV1Record key r none originalUrl userAgent net).path
      = (match truthy originalUrl with
         | some u => u
         | none => "/".data) := rfl
